import Mathlib

/-! Worktree orchestration engine: a shallow embedding.

Source files embedded here:

* `internal/utils/utils.go`: `ListDirectories`, `CheckMainOrMasterExists`, `dirExists`,
  `CreateNewBranch`, `PrepareDestinationConfig`, `copyFile`, `GetWorktrees`, `AddWorktree`,
  `RemoveWorktree`, `execCommand`, `ChangeDirectory`;
* `internal/layout/layout.go`: the scan loop of `SetupLayoutContentMenus` and the handlers of
  `showWorktreeModal`.

Conventions.

* Go strings and byte slices are Lean `String`s, that is sequences of Unicode code points:
  the text is taken to be valid UTF-8.  Every separator and prefix the code looks for is
  ASCII, so splitting and prefix tests on bytes and on code points agree.
* A Go `error` is an `Option String`: `none` is `nil`, `some msg` carries `err.Error()`.
* The operating system (working directory, file system, child processes) is an arbitrary
  transition system `OS σ`; every call the code makes is appended to a trace of `Event`s.
-/

namespace Worktree

/-! ## Go standard library: strings and bytes -/

/-- Go `unicode.IsSpace`: the Latin-1 cases of the function, then the `White_Space` table. -/
def IsSpace (c : Char) : Bool :=
  let r := c.toNat
  if r ≤ 0xFF then
    r = 0x09 || r = 0x0A || r = 0x0B || r = 0x0C || r = 0x0D || r = 0x20 || r = 0x85 || r = 0xA0
  else
    r = 0x1680 || (0x2000 ≤ r && r ≤ 0x200A) || r = 0x2028 || r = 0x2029 || r = 0x202F
      || r = 0x205F || r = 0x3000

/-- Go `bytes.HasPrefix` / `strings.HasPrefix`. -/
def HasPrefix (s pre : String) : Bool :=
  pre.data.isPrefixOf s.data

/-- Go `bytes.TrimPrefix`: `s` without the leading `pre`, or `s` itself when `pre` is not a
prefix of it. -/
def TrimPrefix (s pre : String) : String :=
  if HasPrefix s pre then ⟨s.data.drop pre.data.length⟩ else s

/-- Characters of a string after removing the trailing white space. -/
def trimRight (cs : List Char) : List Char :=
  (cs.reverse.dropWhile IsSpace).reverse

/-- Go `strings.TrimSpace`: leading and trailing white space removed. -/
def TrimSpace (s : String) : String :=
  ⟨trimRight (s.data.dropWhile IsSpace)⟩

/-- Pieces of a character sequence cut at every occurrence of `sep`; always at least one
piece (Go `bytes.Split` / `strings.Split` with a one-character separator). -/
def splitChars (sep : Char) : List Char → List (List Char)
  | [] => [[]]
  | c :: cs =>
    if c = sep then [] :: splitChars sep cs
    else
      match splitChars sep cs with
      | [] => [[c]]
      | l :: ls => (c :: l) :: ls

/-- Go `bytes.Split(output, []byte("\n"))`. -/
def Split (output : String) : List String :=
  (splitChars '\n' output.data).map String.mk

/-- Go `strings.Count(s, "/")`. -/
def CountSlash (s : String) : Nat :=
  s.data.count '/'

/-- Go `strings.Repeat(s, n)`. -/
def Repeat (s : String) : Nat → String
  | 0 => ""
  | n + 1 => s ++ Repeat s n

/-- Go `strings.Contains(text, " ")`. -/
def ContainsSpace (text : String) : Bool :=
  text.data.contains ' '

/-! ## The parsing loop of `GetWorktrees` (utils.go, lines 142-153) -/

/-- The value appended to `branches` for a line `lines[j]` that starts with `branch `. -/
def branchOfLine (line : String) : String :=
  TrimSpace (TrimPrefix line "branch refs/heads/")

/-- The inner `for j` loop: from index `j` up to the next line starting with `worktree `
(or the end of `lines`), appending one name for every line that starts with `branch `. -/
def innerLoop (lines : List String) (j : Nat) (branches : List String) : List String :=
  if h : j < lines.length then
    if HasPrefix lines[j] "worktree " then branches
    else
      innerLoop lines (j + 1)
        (if HasPrefix lines[j] "branch " then branches ++ [branchOfLine lines[j]] else branches)
  else branches
termination_by lines.length - j

/-- The outer `for i` loop: every line starting with `worktree ` runs the inner loop from the
line after it. -/
def outerLoop (lines : List String) (i : Nat) (branches : List String) : List String :=
  if h : i < lines.length then
    outerLoop lines (i + 1)
      (if HasPrefix lines[i] "worktree " then innerLoop lines (i + 1) branches else branches)
  else branches
termination_by lines.length - i

/-- Lines 142-153 of `GetWorktrees`: the branch list computed from the output of
`git worktree list --porcelain`. -/
def parseWorktrees (output : String) : List String :=
  outerLoop (Split output) 0 []

/-! ### The loops by recursion on the remaining lines (used to evaluate and to reason) -/

/-- The inner loop on the lines that remain. -/
def innerRest : List String → List String → List String
  | [], branches => branches
  | l :: ls, branches =>
    if HasPrefix l "worktree " then branches
    else innerRest ls (if HasPrefix l "branch " then branches ++ [branchOfLine l] else branches)

/-- The outer loop on the lines that remain. -/
def outerRest : List String → List String → List String
  | [], branches => branches
  | l :: ls, branches =>
    outerRest ls (if HasPrefix l "worktree " then innerRest ls branches else branches)


/-! ### Porcelain listings as sequences of records -/

/-- One record of a porcelain listing: the line `worktree <path>` followed by its attribute
lines (`HEAD <sha>`, `branch <ref>`, `bare`, `detached`, blank lines, ...). -/
structure Record where
  path : String
  attrs : List String
  deriving DecidableEq, Repr

/-- The lines of a record. -/
def Record.lines (r : Record) : List String :=
  ("worktree " ++ r.path) :: r.attrs

/-- A record of the format: no line contains a newline, no attribute line starts a new
record, and at most one attribute line is a `branch` line. -/
def Record.WellFormed (r : Record) : Prop :=
  '\n' ∉ r.path.data ∧
  (∀ a ∈ r.attrs, '\n' ∉ a.data ∧ HasPrefix a "worktree " = false) ∧
  (r.attrs.filter (fun a => HasPrefix a "branch ")).length ≤ 1

instance (r : Record) : Decidable r.WellFormed := by
  unfold Record.WellFormed; infer_instance

/-- The `branch` attribute line of a record, when it has one. -/
def Record.branchLine (r : Record) : Option String :=
  r.attrs.find? (fun a => HasPrefix a "branch ")

/-- The entry the listing is expected to give for a record: the name taken from its `branch`
line, none for a record without one. -/
def Record.entry (r : Record) : Option String :=
  r.branchLine.map branchOfLine

/-- No white space at the start and none at the end of a name. -/
def EdgeClean (name : String) : Prop :=
  (∀ c ∈ name.data.head?, IsSpace c = false) ∧ (∀ c ∈ name.data.reverse.head?, IsSpace c = false)

instance (name : String) : Decidable (EdgeClean name) := by
  unfold EdgeClean; infer_instance

/-- The lines that may follow the attribute lines of a record: nothing, or the first line of
the next record. -/
def StartsRecord (rest : List String) : Prop :=
  ∀ l ∈ rest.head?, HasPrefix l "worktree " = true

/-- The text of a listing: the lines of its records, in order, separated by newlines. -/
def listing (rs : List Record) : String :=
  "\n".intercalate (rs.map Record.lines).flatten

/-! ## Go standard library: `path/filepath` on Unix -/

/-- The component stack of `filepath.Clean`: empty and `.` components are dropped, a `..`
removes the component before it, is dropped at the root, and is kept otherwise. -/
def cleanComponents (rooted : Bool) : List (List Char) → List (List Char) → List (List Char)
  | [], acc => acc.reverse
  | c :: cs, acc =>
    if c = [] ∨ c = ['.'] then cleanComponents rooted cs acc
    else if c = ['.', '.'] then
      match acc with
      | [] => if rooted then cleanComponents rooted cs [] else cleanComponents rooted cs [c]
      | top :: rest =>
        if top = ['.', '.'] then cleanComponents rooted cs (c :: acc)
        else cleanComponents rooted cs rest
    else cleanComponents rooted cs (c :: acc)

/-- Go `filepath.Clean`. -/
def Clean (p : String) : String :=
  let rooted : Bool := p.data.head? = some '/'
  let body : List Char := ['/'].intercalate (cleanComponents rooted (splitChars '/' p.data) [])
  if rooted then ⟨'/' :: body⟩ else if body = [] then "." else ⟨body⟩

/-- Go `filepath.Join`: the elements from the first non-empty one on, joined by `/` and
cleaned; the empty string when every element is empty. -/
def Join : List String → String
  | [] => ""
  | e :: es => if e = "" then Join es else Clean ("/".intercalate (e :: es))

/-! ## The operating system -/

/-- Outcome of `os.Stat`. -/
inductive StatResult
  /-- an error for which `os.IsNotExist` holds -/
  | notExist
  /-- any other error, with its text -/
  | failed (err : String)
  /-- success, with `info.IsDir()` -/
  | info (isDir : Bool)
  deriving DecidableEq, Repr

/-- One entry of `os.ReadDir`, with `file.Name()` and `file.IsDir()`. -/
structure DirEntry where
  name : String
  isDir : Bool
  deriving DecidableEq, Repr

/-- What a child process does once it is started. -/
inductive Proc
  /-- the process cannot be started -/
  | startFails (err : String)
  /-- the process exits `seconds` after its start with an exit code and its two outputs -/
  | exits (seconds : Nat) (code : Nat) (stdout stderr : String)
  /-- the process never terminates by itself -/
  | hangs
  deriving DecidableEq, Repr

/-- Calls recorded in the trace. -/
inductive Event
  | chdir (path : String)
  | command (argv : List String)
  | kill (argv : List String)
  | create (path : String)
  | copy (src dst : String)
  | log (format : String) (args : List String)
  deriving DecidableEq, Repr

/-- The operating system as seen by the program, over states `σ`. -/
structure OS (σ : Type) where
  /-- `os.Chdir` -/
  chdir : String → σ → Option String × σ
  /-- `os.Getwd` -/
  getwd : σ → Except String String
  /-- `os.Stat` -/
  stat : String → σ → StatResult
  /-- `os.ReadDir` -/
  readDir : String → σ → Except String (List DirEntry)
  /-- starting a command: its behaviour, and the state once the caller resumes -/
  spawn : List String → σ → Proc × σ
  /-- `cmd.Process.Kill` -/
  kill : List String → σ → Option String × σ
  /-- `os.Open` for reading -/
  openFile : String → σ → Option String
  /-- `os.Create` -/
  createFile : String → σ → Option String × σ
  /-- `io.Copy` from the opened source to the created destination -/
  copyData : String → String → σ → Option String × σ

/-- State of the operating system together with the calls issued so far. -/
structure World (σ : Type) where
  st : σ
  trace : List Event

/-- How a call that waits for a child process without a deadline ends: it returns a value, or
it never returns.  Both carry the world with the calls issued up to that point. -/
inductive Result (σ α : Type) where
  | returned (value : α) (w : World σ)
  | blocked (w : World σ)

variable {σ : Type}

/-- The world at the end of a call (for a blocked call, at the point where it blocks). -/
def Result.world {α : Type} : Result σ α → World σ
  | Result.returned _ w => w
  | Result.blocked w => w

/-- The value a call returns, none when it never returns. -/
def Result.value? {α : Type} : Result σ α → Option α
  | Result.returned value _ => some value
  | Result.blocked _ => none

/-- A call of the `logger` callback. -/
def logf (format : String) (args : List String) (w : World σ) : World σ :=
  ⟨w.st, w.trace ++ [Event.log format args]⟩

/-- Rendering of an `error` argument under the verb `%v`. -/
def showErr : Option String → String
  | none => "<nil>"
  | some e => e

/-- Text of `fmt.Errorf(msg + ": %w", err)`. -/
def wrapErr (msg : String) : Option String → String
  | none => msg ++ ": %!w(<nil>)"
  | some e => msg ++ ": " ++ e

/-- Go `(*exec.Cmd).Run` with no deadline and standard error discarded: the error of a
non-zero exit is an `*exec.ExitError`, whose text is `exit status <code>`.  The call waits for
the process however long it takes and never returns when the process never terminates. -/
def Run (os : OS σ) (argv : List String) (w : World σ) : Result σ (Option String) :=
  let r := os.spawn argv w.st
  let w1 : World σ := ⟨r.2, w.trace ++ [Event.command argv]⟩
  match r.1 with
  | Proc.startFails e => Result.returned (some e) w1
  | Proc.exits _ code _ _ =>
    Result.returned (if code = 0 then none else some ("exit status " ++ toString code)) w1
  | Proc.hangs => Result.blocked w1

/-- Go `(*exec.Cmd).Output`: as `Run`, also returning the captured standard output. -/
def Output (os : OS σ) (argv : List String) (w : World σ) :
    Result σ (String × Option String) :=
  let r := os.spawn argv w.st
  let w1 : World σ := ⟨r.2, w.trace ++ [Event.command argv]⟩
  match r.1 with
  | Proc.startFails e => Result.returned ("", some e) w1
  | Proc.exits _ code stdout _ =>
    Result.returned (stdout, if code = 0 then none else some ("exit status " ++ toString code)) w1
  | Proc.hangs => Result.blocked w1

/-! ## `internal/utils/utils.go` -/

/-- `ChangeDirectory`. -/
def ChangeDirectory (os : OS σ) (path : String) (w : World σ) : Option String × World σ :=
  let r := os.chdir path w.st
  let w1 : World σ := ⟨r.2, w.trace ++ [Event.chdir path]⟩
  match r.1 with
  | some e => (some ("failed to change directory to " ++ path ++ ": " ++ e), w1)
  | none => (none, w1)

/-- `Pwd` (the message it prints on failure goes to standard output and is not recorded). -/
def Pwd (os : OS σ) (w : World σ) : String :=
  match os.getwd w.st with
  | Except.error _ => ""
  | Except.ok dir => dir

/-- `ListDirectories`. -/
def ListDirectories (os : OS σ) (path : String) (w : World σ) : List String × Option String :=
  match os.readDir path w.st with
  | Except.error e => ([], some e)
  | Except.ok files => ((files.filter (fun file => file.isDir)).map (fun file => file.name), none)

/-- `dirExists`. -/
def dirExists (os : OS σ) (path : String) (w : World σ) : Bool × Option String :=
  match os.stat path w.st with
  | StatResult.notExist => (false, none)
  | StatResult.failed e => (false, some e)
  | StatResult.info isDir => (isDir, none)

/-- `CheckMainOrMasterExists`. -/
def CheckMainOrMasterExists (os : OS σ) (selectedRepo : String) (w : World σ) :
    String × Option String :=
  let m := dirExists os (Join [selectedRepo, "main"]) w
  if m.2.isSome then ("", m.2)
  else if m.1 then ("main", none)
  else
    let ms := dirExists os (Join [selectedRepo, "master"]) w
    if ms.2.isSome then ("", ms.2)
    else if ms.1 then ("master", none)
    else ("", some "main or master branch not found")

/-- The command line built by `CreateNewBranch`. -/
def worktreeAddArgv (branchName mainBranchName : String) : List String :=
  ["git", "worktree", "add", "-b", branchName, Join ["..", branchName], mainBranchName]

/-- `CreateNewBranch`: the command is run with `cmd.Run()`. -/
def CreateNewBranch (os : OS σ) (branchName mainBranchName : String) (w : World σ) :
    Result σ (Option String) :=
  Run os (worktreeAddArgv branchName mainBranchName) w

/-- `copyFile`. -/
def copyFile (os : OS σ) (src dst : String) (w : World σ) : Option String × World σ :=
  match os.openFile src w.st with
  | some e => (some ("failed to open source file: " ++ e), w)
  | none =>
    let c := os.createFile dst w.st
    let w1 : World σ := ⟨c.2, w.trace ++ [Event.create dst]⟩
    match c.1 with
    | some e => (some ("failed to create destination file: " ++ e), w1)
    | none =>
      let d := os.copyData src dst w1.st
      let w2 : World σ := ⟨d.2, w1.trace ++ [Event.copy src dst]⟩
      match d.1 with
      | some e => (some ("error copying file contents: " ++ e), w2)
      | none => (none, w2)

/-- `PrepareDestinationConfig`. -/
def PrepareDestinationConfig (os : OS σ) (branchName : String) (w : World σ) :
    Option String × World σ :=
  if os.stat "workspace.code-workspace" w.st = StatResult.notExist then
    (none, logf "Workspace file not found" [] w)
  else
    let workspaceFile := "workspace.code-workspace"
    let src := Join [".", workspaceFile]
    let dest := Join ["..", branchName, workspaceFile]
    let r := copyFile os src dest w
    match r.1 with
    | some e => (some ("failed to copy file: " ++ e), r.2)
    | none => (none, r.2)

/-- `GetWorktrees`. -/
def GetWorktrees (os : OS σ) (w : World σ) : Result σ (List String × Option String) :=
  let c := CheckMainOrMasterExists os "." w
  if c.2.isSome ∨ c.1 = "" then
    Result.returned ([], some (wrapErr "failed checking main or master branch" c.2)) w
  else
    let d := ChangeDirectory os c.1 w
    match d.1 with
    | some e => Result.returned ([], some ("failed to change directory to main branch " ++ e)) d.2
    | none =>
      match Run os ["git", "status"] d.2 with
      | Result.blocked w2 => Result.blocked w2
      | Result.returned (some e) w2 =>
        Result.returned ([], some ("failed to run git status: " ++ e)) w2
      | Result.returned none w2 =>
        match Output os ["git", "worktree", "list", "--porcelain"] w2 with
        | Result.blocked w3 => Result.blocked w3
        | Result.returned (_, some e) w3 =>
          Result.returned ([], some ("failed to get worktrees: " ++ e)) w3
        | Result.returned (output, none) w3 =>
          let branches := parseWorktrees output
          let u := ChangeDirectory os ".." w3
          match u.1 with
          | some e =>
            Result.returned ([], some ("failed to change directory to parent: " ++ e)) u.2
          | none => Result.returned (branches, none) u.2

/-- `AddWorktree`. -/
def AddWorktree (os : OS σ) (path newBranchName : String) (w : World σ) :
    Result σ (Option String) :=
  let d := ChangeDirectory os path w
  match d.1 with
  | some e =>
    Result.returned (some ("failed to change directory to " ++ path ++ ": " ++ e)) d.2
  | none =>
    let c := CheckMainOrMasterExists os "." d.2
    if c.2.isSome ∨ c.1 = "" then
      Result.returned c.2
        (logf "Failed checking main or master branch, error: %v" [showErr c.2] d.2)
    else
      let m := ChangeDirectory os c.1 d.2
      match m.1 with
      | some e => Result.returned (some e) (logf "Failed to go to %s dir, error: %v" [c.1, e] m.2)
      | none =>
        match CreateNewBranch os newBranchName c.1
            (logf "Adding worktree %v" [newBranchName] m.2) with
        | Result.blocked w3 => Result.blocked w3
        | Result.returned (some e) w3 =>
          Result.returned (some e) (logf "Failed to create a new branch, error: %v" [e] w3)
        | Result.returned none w3 =>
          let p := PrepareDestinationConfig os newBranchName w3
          match p.1 with
          | some e =>
            Result.returned (some e)
              (logf "Failed to prepare destination config, error: %v" [e] p.2)
          | none =>
            Result.returned none (logf "Worktree %v added successfully" [newBranchName] p.2)

/-- The deadline of `execCommand`, in seconds. -/
def deadlineSeconds : Nat := 60

/-- The timer branch of the `select` in `execCommand`: the process is killed. -/
def timedOut (os : OS σ) (argv : List String) (w : World σ) : Option String × World σ :=
  let k := os.kill argv w.st
  let w1 : World σ := ⟨k.2, w.trace ++ [Event.kill argv]⟩
  match k.1 with
  | some e => (some ("failed to kill process: " ++ e), w1)
  | none => (some "command timed out", w1)

/-- `execCommand`: the process is waited for until the deadline; a process that has not
exited by then takes the timer branch. -/
def execCommand (os : OS σ) (argv : List String) (w : World σ) : Option String × World σ :=
  let r := os.spawn argv w.st
  let w1 : World σ := ⟨r.2, w.trace ++ [Event.command argv]⟩
  match r.1 with
  | Proc.startFails e => (some ("failed to start command: " ++ e), w1)
  | Proc.exits seconds code _ stderr =>
    if seconds < deadlineSeconds then
      (if code = 0 then none else some ("command failed: " ++ stderr), w1)
    else timedOut os argv w1
  | Proc.hangs => timedOut os argv w1

/-- Lines 198-212 of `RemoveWorktree`: the directory changes and the main/master check, whose
failures are logged and do not stop the function, up to the log line before the first
command. -/
def removePreamble (os : OS σ) (path branchName : String) (w : World σ) : World σ :=
  let dirLevel := CountSlash branchName + 1
  let d := ChangeDirectory os (Repeat "../" dirLevel) w
  let w1 := match d.1 with
    | some e => logf "Failed to change directory to repository, error: %v" [e] d.2
    | none => d.2
  let c := CheckMainOrMasterExists os "." w1
  let w2 := if c.2.isSome ∨ c.1 = "" then
      logf "Failed checking main or master branch, error: %v" [showErr c.2] w1
    else w1
  let m := ChangeDirectory os c.1 w2
  let w3 := match m.1 with
    | some e => logf "Failed to change directory to main branch, error: %v" [e] m.2
    | none => m.2
  logf "Removing worktree %v" [path] w3

/-- `RemoveWorktree`. -/
def RemoveWorktree (os : OS σ) (path branchName : String) (w : World σ) :
    Option String × World σ :=
  let r := execCommand os ["git", "worktree", "remove", path] (removePreamble os path branchName w)
  match r.1 with
  | some e => (some ("failed to remove worktree: " ++ e), r.2)
  | none =>
    let b := execCommand os ["git", "branch", "-D", branchName]
      (logf "Removing git branch %v" [branchName] r.2)
    match b.1 with
    | some e => (some ("failed to delete branch: " ++ e), b.2)
    | none => (none, b.2)

/-! ## `internal/layout/layout.go` -/

/-- The `for _, dir := range dirs` loop of `SetupLayoutContentMenus`: the names added to the
repository list, and the world with the log lines of the skipped candidates. -/
def scanLoop (os : OS σ) : List String → World σ → List String × World σ
  | [], w => ([], w)
  | dir :: dirs, w =>
    let c := CheckMainOrMasterExists os dir w
    if c.2.isSome ∧ c.1 = "" then
      scanLoop os dirs
        (logf "Can not find main or master branch for this repository, error: %v" [showErr c.2] w)
    else
      let r := scanLoop os dirs w
      (dir :: r.1, r.2)

/-- `SetupLayoutContentMenus`: the items added to `LeftList`, in order. -/
def SetupLayoutContentMenus (os : OS σ) (path : String) (w : World σ) : List String × World σ :=
  let d := ChangeDirectory os path w
  let w1 := match d.1 with
    | some e => logf "Failed to change directory to %v: %v" [path, e] d.2
    | none => d.2
  let l := ListDirectories os path w1
  let w2 := match l.2 with
    | some e => logf "Error listing directories: %v" [e] w1
    | none => w1
  scanLoop os l.1 w2

/-- The acceptance function of the input field in `showWorktreeModal`: the text is refused
when it contains a space. -/
def acceptBranchName (text : String) (w : World σ) : Bool × World σ :=
  if ContainsSpace text then (false, logf "Branch name cannot contain space" [] w)
  else (true, w)

/-- The part of `selectedWorktreeActionList` that is not presentation. -/
def selectedWorktreeActionList (os : OS σ) (path : String) (w : World σ) : World σ :=
  let d := ChangeDirectory os path w
  let w1 := match d.1 with
    | some e => logf "Failed to change directory to %v: %v" [path, e] d.2
    | none => d.2
  logf "Changed directory to %v" [Pwd os w1] w1

/-- The handler of the `Add` button in `showWorktreeModal`, given the text of the input
field (the calls that only redraw the screen are left out). -/
def addButton (os : OS σ) (path newBranchName : String) (w : World σ) : Result σ Unit :=
  let w1 := logf "Adding new worktree" [] w
  if newBranchName = "" then Result.returned () (logf "Branch name cannot be empty" [] w1)
  else
    match AddWorktree os path newBranchName w1 with
    | Result.blocked w2 => Result.blocked w2
    | Result.returned (some e) w2 =>
      Result.returned () (logf "Failed to add worktree, error: %v" [e] w2)
    | Result.returned none w2 =>
      Result.returned () (selectedWorktreeActionList os (Join [path, newBranchName]) w2)

/-- Commands started in a trace, in order. -/
def commandsOf : List Event → List (List String)
  | [] => []
  | Event.command argv :: es => argv :: commandsOf es
  | _ :: es => commandsOf es

/-- Directory changes requested in a trace, in order. -/
def chdirsOf : List Event → List String
  | [] => []
  | Event.chdir path :: es => path :: chdirsOf es
  | _ :: es => chdirsOf es

/-- The trace of `w1` continues the trace of `w`. -/
def World.Extends (w w1 : World σ) : Prop :=
  ∃ t, w1.trace = w.trace ++ t

/-! ## Concrete operating systems -/

/-- A finite description of an operating system whose answers do not change over time: the
results of `os.Stat` per path (absent paths do not exist), the directory listings, the
behaviour of the commands (a command not listed exits at once with status 0) and the
directories that cannot be entered. -/
structure Fixture where
  stats : List (String × StatResult)
  listings : List (String × List DirEntry)
  procs : List (List String × Proc)
  noChdir : List String

/-- The operating system described by a fixture. -/
def Fixture.os (f : Fixture) : OS Unit where
  chdir := fun path s => (if path ∈ f.noChdir then some "permission denied" else none, s)
  getwd := fun _ => Except.ok "/"
  stat := fun path _ => (f.stats.lookup path).getD StatResult.notExist
  readDir := fun path _ =>
    match f.listings.lookup path with
    | some entries => Except.ok entries
    | none => Except.error "no such file or directory"
  spawn := fun argv s => ((f.procs.lookup argv).getD (Proc.exits 0 0 "" ""), s)
  kill := fun _ s => (none, s)
  openFile := fun _ _ => none
  createFile := fun _ s => (none, s)
  copyData := fun _ _ s => (none, s)

/-- A repository `proj` whose `main` cannot be examined (a symbolic link that loops) next to a
`master` directory. -/
def loopingMain : Fixture where
  stats := [("proj/main", StatResult.failed "stat proj/main: too many levels of symbolic links"),
    ("proj/master", StatResult.info true)]
  listings := []
  procs := []
  noChdir := []

/-- A repository `proj` with a `master` directory only, and a directory `empty` with neither
`main` nor `master`, seen from the root and from inside. -/
def masterOnly : Fixture where
  stats := [("proj/master", StatResult.info true), ("master", StatResult.info true)]
  listings := []
  procs := []
  noChdir := []

/-- A file system with a working directory: the results of `os.Stat` and of `os.ReadDir` per
absolute path (absent paths do not exist), and the directories that cannot be entered though
they can be read (no search permission). -/
structure Disk where
  nodes : List (String × StatResult)
  listings : List (String × List DirEntry)
  locked : List String

/-- The absolute path a path stands for in the working directory `cwd`. -/
def Disk.resolve (cwd path : String) : String :=
  if path.data.head? = some '/' then Clean path else Join [cwd, path]

/-- The operating system over a disk; its state is the working directory.  A directory
change fails, and leaves the working directory as it is, when the target is locked or is not
a directory. -/
def Disk.os (d : Disk) : OS String where
  chdir := fun path cwd =>
    if Disk.resolve cwd path ∈ d.locked then (some "permission denied", cwd)
    else if (d.nodes.lookup (Disk.resolve cwd path)).getD StatResult.notExist
        = StatResult.info true then (none, Disk.resolve cwd path)
    else (some "no such file or directory", cwd)
  getwd := fun cwd => Except.ok cwd
  stat := fun path cwd => (d.nodes.lookup (Disk.resolve cwd path)).getD StatResult.notExist
  readDir := fun path cwd =>
    match d.listings.lookup (Disk.resolve cwd path) with
    | some entries => Except.ok entries
    | none => Except.error "no such file or directory"
  spawn := fun _ cwd => (Proc.exits 0 0 "" "", cwd)
  kill := fun _ cwd => (none, cwd)
  openFile := fun _ _ => none
  createFile := fun _ cwd => (none, cwd)
  copyData := fun _ _ cwd => (none, cwd)

/-- A root `/repos` with the entries `empty` (a directory without `main` or `master`),
`notes.txt` (a file), `old` (with a file `main` and a directory `master`) and `proj` (with a
directory `main`), in the order of `os.ReadDir`. -/
def reposDisk : Disk where
  nodes := [("/", StatResult.info true), ("/repos", StatResult.info true),
    ("/repos/empty", StatResult.info true), ("/repos/notes.txt", StatResult.info false),
    ("/repos/old", StatResult.info true), ("/repos/old/main", StatResult.info false),
    ("/repos/old/master", StatResult.info true), ("/repos/proj", StatResult.info true),
    ("/repos/proj/main", StatResult.info true)]
  listings := [("/repos",
    [⟨"empty", true⟩, ⟨"notes.txt", false⟩, ⟨"old", true⟩, ⟨"proj", true⟩])]
  locked := []

/-- A root `/srv/repos` that can be read but not entered, whose directory `proj` has neither
`main` nor `master`, and a working directory `/home/u` with a directory `proj/main`. -/
def lockedRoot : Disk where
  nodes := [("/home/u", StatResult.info true), ("/home/u/proj", StatResult.info true),
    ("/home/u/proj/main", StatResult.info true), ("/srv/repos", StatResult.info true),
    ("/srv/repos/proj", StatResult.info true)]
  listings := [("/srv/repos", [⟨"proj", true⟩]), ("/srv/repos/proj", []),
    ("/home/u", [⟨"proj", true⟩]), ("/home/u/proj", [⟨"main", true⟩])]
  locked := ["/srv/repos"]

/-- The relative names that the scan of `root` checks stand, in the state `st`, for the
paths of `main` and `master` inside the entries of `root`: `<dir>/main` is
`<root>/<dir>/main`, and so for `master`. -/
def ResolvesInside (os : OS σ) (root : String) (st : σ) : Prop :=
  ∀ entries, os.readDir root st = Except.ok entries → ∀ file ∈ entries, file.isDir = true →
    os.stat (Join [file.name, "main"]) st = os.stat (Join [root, file.name, "main"]) st ∧
    os.stat (Join [file.name, "master"]) st = os.stat (Join [root, file.name, "master"]) st

/-- A repository entered at its root, with a `main` directory. -/
def plainRepo : Fixture where
  stats := [("main", StatResult.info true)]
  listings := []
  procs := []
  noChdir := []

/-- As `plainRepo`, where `git worktree add` for the branch `feat` exits with status 128 and a
message on its standard error. -/
def addConflict : Fixture where
  stats := [("main", StatResult.info true)]
  listings := []
  procs := [(worktreeAddArgv "feat" "main",
    Proc.exits 1 128 "" "fatal: a branch named feat already exists")]
  noChdir := []

/-- As `plainRepo`, where `git worktree add` for the branch `feat` never terminates. -/
def addHangs : Fixture where
  stats := [("main", StatResult.info true)]
  listings := []
  procs := [(worktreeAddArgv "feat" "main", Proc.hangs)]
  noChdir := []

/-- As `plainRepo`, where `git worktree remove` exits with status 128 and a message on its
standard error. -/
def removeFails : Fixture where
  stats := [("main", StatResult.info true)]
  listings := []
  procs := [(["git", "worktree", "remove", "/repos/proj/feat"],
    Proc.exits 1 128 "" "fatal: working tree is dirty")]
  noChdir := []

/-- As `plainRepo`, where `git worktree remove` never terminates. -/
def removeHangs : Fixture where
  stats := [("main", StatResult.info true)]
  listings := []
  procs := [(["git", "worktree", "remove", "/repos/proj/feat"], Proc.hangs)]
  noChdir := []

/-- Go `strings.Split(branchName, "/")`: the path segments of a branch name. -/
def Segments (branchName : String) : List String :=
  (splitChars '/' branchName.data).map String.mk

/-- The world before any call. -/
def World.start : World Unit := ⟨(), []⟩

/-- The listing of the example: two records, each with a branch, blank lines after them. -/
def exampleRecords : List Record :=
  [⟨"/repos/proj/main", ["branch refs/heads/main", ""]⟩,
   ⟨"/repos/proj/feat", ["branch refs/heads/feat", ""]⟩]

/-! ## Theorems -/

theorem innerLoop_eq_innerRest (lines : List String) (j : Nat) (branches : List String) :
    innerLoop lines j branches = innerRest (lines.drop j) branches := by
  generalize h : lines.length - j = n
  induction n generalizing j branches with
  | zero =>
    have hj : lines.length ≤ j := by omega
    rw [innerLoop, dif_neg (by omega), List.drop_eq_nil_of_le hj]
    rfl
  | succ n ih =>
    have hj : j < lines.length := by omega
    rw [innerLoop, dif_pos hj, List.drop_eq_getElem_cons hj, innerRest]
    split
    · rfl
    · exact ih _ _ (by omega)

theorem outerLoop_eq_outerRest (lines : List String) (i : Nat) (branches : List String) :
    outerLoop lines i branches = outerRest (lines.drop i) branches := by
  generalize h : lines.length - i = n
  induction n generalizing i branches with
  | zero =>
    have hi : lines.length ≤ i := by omega
    rw [outerLoop, dif_neg (by omega), List.drop_eq_nil_of_le hi]
    rfl
  | succ n ih =>
    have hi : i < lines.length := by omega
    rw [outerLoop, dif_pos hi, List.drop_eq_getElem_cons hi, outerRest, innerLoop_eq_innerRest]
    exact ih _ _ (by omega)

theorem parseWorktrees_eq (output : String) :
    parseWorktrees output = outerRest (Split output) [] := by
  rw [parseWorktrees, outerLoop_eq_outerRest, List.drop_zero]


/-! ### Splitting into lines -/

theorem splitChars_ne_nil (sep : Char) (cs : List Char) : splitChars sep cs ≠ [] := by
  cases cs with
  | nil => simp [splitChars]
  | cons c cs =>
    rw [splitChars]
    split
    · simp
    · split <;> simp

theorem splitChars_of_not_mem (sep : Char) (cs : List Char) (h : sep ∉ cs) :
    splitChars sep cs = [cs] := by
  induction cs with
  | nil => rfl
  | cons c cs ih =>
    have hc : c ≠ sep := fun e => h (by simp [e])
    have hcs : sep ∉ cs := fun e => h (by simp [e])
    rw [splitChars, if_neg hc, ih hcs]

theorem splitChars_append_sep (sep : Char) (l rest : List Char) (h : sep ∉ l) :
    splitChars sep (l ++ sep :: rest) = l :: splitChars sep rest := by
  induction l with
  | nil => simp [splitChars]
  | cons c cs ih =>
    have hc : c ≠ sep := fun e => h (by simp [e])
    have hcs : sep ∉ cs := fun e => h (by simp [e])
    rw [List.cons_append, splitChars, if_neg hc, ih hcs]

theorem splitChars_append_replicate (sep : Char) (cs : List Char) (k : Nat) :
    splitChars sep (cs ++ List.replicate k sep) = splitChars sep cs ++ List.replicate k [] := by
  induction cs with
  | nil =>
    induction k with
    | zero => rfl
    | succ k ih =>
      simp only [List.nil_append] at ih
      simp only [List.nil_append, List.replicate_succ, splitChars, if_true, ih]
      rfl
  | cons c cs ih =>
    rw [List.cons_append, splitChars, splitChars, ih]
    split
    · rfl
    · cases hs : splitChars sep cs with
      | nil => exact absurd hs (splitChars_ne_nil sep cs)
      | cons l ls => rfl

theorem Repeat_newline_data (k : Nat) : (Repeat "\n" k).data = List.replicate k '\n' := by
  induction k with
  | zero => rfl
  | succ k ih => rw [Repeat, String.data_append, ih]; rfl

theorem Split_append_newlines (s : String) (k : Nat) :
    Split (s ++ Repeat "\n" k) = Split s ++ List.replicate k "" := by
  simp only [Split, String.data_append, Repeat_newline_data, splitChars_append_replicate,
    List.map_append, List.map_replicate]

/-! ### Blank lines at the end -/

theorem innerRest_append_blank (ls : List String) (k : Nat) (branches : List String) :
    innerRest (ls ++ List.replicate k "") branches = innerRest ls branches := by
  induction ls generalizing branches with
  | nil =>
    induction k with
    | zero => rfl
    | succ k ih =>
      simp only [List.nil_append] at ih
      simp only [List.nil_append, List.replicate_succ, innerRest]
      rw [if_neg (by decide), if_neg (by decide)]
      exact ih
  | cons l ls ih =>
    simp only [List.cons_append, innerRest]
    split
    · rfl
    · exact ih _

theorem outerRest_append_blank (ls : List String) (k : Nat) (branches : List String) :
    outerRest (ls ++ List.replicate k "") branches = outerRest ls branches := by
  induction ls generalizing branches with
  | nil =>
    induction k with
    | zero => rfl
    | succ k ih =>
      simp only [List.nil_append] at ih
      simp only [List.nil_append, List.replicate_succ, outerRest]
      rw [if_neg (by decide)]
      exact ih
  | cons l ls ih =>
    rw [List.cons_append, outerRest, outerRest, innerRest_append_blank]
    exact ih _

/-! ### Listings made of records -/

theorem intercalate_go_data (acc sep : String) (as : List String) :
    (String.intercalate.go acc sep as).data
      = acc.data ++ (as.map (fun a => sep.data ++ a.data)).flatten := by
  induction as generalizing acc with
  | nil => simp [String.intercalate.go]
  | cons a as ih =>
    rw [String.intercalate.go, ih]
    simp [String.data_append, List.append_assoc]

theorem splitChars_lines (a : String) (as : List String)
    (h : ∀ l ∈ a :: as, '\n' ∉ l.data) :
    (splitChars '\n' (a.data ++ (as.map (fun x => "\n".data ++ x.data)).flatten)).map String.mk
      = a :: as := by
  induction as generalizing a with
  | nil =>
    simp only [List.map_nil, List.flatten_nil, List.append_nil]
    rw [splitChars_of_not_mem _ _ (h a (by simp))]
    rfl
  | cons b bs ih =>
    have ha : '\n' ∉ a.data := h a (by simp)
    have hb : ∀ l ∈ b :: bs, '\n' ∉ l.data := fun l hl => h l (List.mem_cons_of_mem _ hl)
    have e : a.data ++ ((b :: bs).map (fun x => "\n".data ++ x.data)).flatten
        = a.data ++ '\n' :: (b.data ++ (bs.map (fun x => "\n".data ++ x.data)).flatten) := by
      simp only [List.map_cons, List.flatten_cons, List.append_assoc]
      rfl
    rw [e, splitChars_append_sep _ _ _ ha, List.map_cons, ih b hb]

theorem Split_intercalate (ls : List String) (hne : ls ≠ [])
    (h : ∀ l ∈ ls, '\n' ∉ l.data) : Split ("\n".intercalate ls) = ls := by
  cases ls with
  | nil => exact absurd rfl hne
  | cons a as =>
    rw [Split, String.intercalate, intercalate_go_data]
    exact splitChars_lines a as h

theorem HasPrefix_append (pre s : String) : HasPrefix (pre ++ s) pre = true := by
  rw [HasPrefix, String.data_append, List.isPrefixOf_iff_prefix]
  exact List.prefix_append _ _

theorem innerRest_acc (ls : List String) (acc : List String) :
    innerRest ls acc = acc ++ innerRest ls [] := by
  induction ls generalizing acc with
  | nil => simp [innerRest]
  | cons l ls ih =>
    rw [innerRest, innerRest]
    split
    · simp
    · split
      · rw [ih (acc ++ _), ih ([] ++ _)]; simp
      · exact ih acc

theorem outerRest_acc (ls : List String) (acc : List String) :
    outerRest ls acc = acc ++ outerRest ls [] := by
  induction ls generalizing acc with
  | nil => simp [outerRest]
  | cons l ls ih =>
    rw [outerRest, outerRest]
    split
    · rw [ih (innerRest ls acc), ih (innerRest ls []), innerRest_acc ls acc]; simp
    · exact ih acc

theorem innerRest_attrs (attrs rest : List String)
    (hattrs : ∀ a ∈ attrs, HasPrefix a "worktree " = false) (hrest : StartsRecord rest) :
    innerRest (attrs ++ rest) []
      = (attrs.filter (fun a => HasPrefix a "branch ")).map branchOfLine := by
  induction attrs with
  | nil =>
    cases rest with
    | nil => rfl
    | cons l ls =>
      have hl : HasPrefix l "worktree " = true := hrest l (by simp)
      simp [innerRest, hl]
  | cons a as ih =>
    have ha : HasPrefix a "worktree " = false := hattrs a (by simp)
    have has : ∀ x ∈ as, HasPrefix x "worktree " = false :=
      fun x hx => hattrs x (List.mem_cons_of_mem _ hx)
    rw [List.cons_append, innerRest, if_neg (by simp [ha])]
    by_cases hb : HasPrefix a "branch " = true
    · rw [if_pos hb, innerRest_acc, ih has]
      simp [List.filter_cons, hb]
    · rw [if_neg hb, ih has]
      simp [List.filter_cons, hb]

theorem outerRest_attrs (attrs rest : List String) (acc : List String)
    (hattrs : ∀ a ∈ attrs, HasPrefix a "worktree " = false) :
    outerRest (attrs ++ rest) acc = outerRest rest acc := by
  induction attrs with
  | nil => rfl
  | cons a as ih =>
    have ha : HasPrefix a "worktree " = false := hattrs a (by simp)
    rw [List.cons_append, outerRest, if_neg (by simp [ha])]
    exact ih (fun x hx => hattrs x (List.mem_cons_of_mem _ hx))

theorem startsRecord_flatten (rs : List Record) :
    StartsRecord (rs.map Record.lines).flatten := by
  cases rs with
  | nil => intro l hl; simp at hl
  | cons r rs =>
    intro l hl
    simp only [List.map_cons, List.flatten_cons, Record.lines, List.cons_append, List.head?_cons,
      Option.mem_def, Option.some.injEq] at hl
    rw [← hl]
    exact HasPrefix_append _ _

theorem filter_eq_find (p : String → Bool) (l : List String) (h : (l.filter p).length ≤ 1) :
    l.filter p = (l.find? p).toList := by
  induction l with
  | nil => rfl
  | cons a as ih =>
    by_cases ha : p a = true
    · rw [List.filter_cons_of_pos ha] at h ⊢
      rw [List.find?_cons_of_pos _ ha]
      have h0 : (as.filter p).length = 0 := by
        simp only [List.length_cons] at h; omega
      rw [List.length_eq_zero.mp h0]; rfl
    · rw [List.filter_cons_of_neg ha] at h ⊢
      rw [List.find?_cons_of_neg _ ha]
      exact ih h

theorem outerRest_records (rs : List Record) (h : ∀ r ∈ rs, r.WellFormed) :
    outerRest (rs.map Record.lines).flatten [] = rs.filterMap Record.entry := by
  induction rs with
  | nil => rfl
  | cons r rs ih =>
    have hr : r.WellFormed := h r (by simp)
    have hrs : ∀ x ∈ rs, x.WellFormed := fun x hx => h x (List.mem_cons_of_mem _ hx)
    have hattrs : ∀ a ∈ r.attrs, HasPrefix a "worktree " = false := fun a ha => (hr.2.1 a ha).2
    simp only [List.map_cons, List.flatten_cons, Record.lines, List.cons_append]
    rw [outerRest, if_pos (HasPrefix_append _ _),
      innerRest_attrs _ _ hattrs (startsRecord_flatten rs), outerRest_attrs _ _ _ hattrs,
      outerRest_acc, ih hrs, filter_eq_find _ _ hr.2.2]
    cases hb : r.attrs.find? (fun a => HasPrefix a "branch ") with
    | none => simp [List.filterMap_cons, Record.entry, Record.branchLine, hb]
    | some b => simp [List.filterMap_cons, Record.entry, Record.branchLine, hb]

theorem lines_no_newline (rs : List Record) (h : ∀ r ∈ rs, r.WellFormed) :
    ∀ l ∈ (rs.map Record.lines).flatten, '\n' ∉ l.data := by
  intro l hl
  simp only [List.mem_flatten, List.mem_map] at hl
  obtain ⟨ls, ⟨r, hr, rfl⟩, hl⟩ := hl
  have hw := h r hr
  simp only [Record.lines, List.mem_cons] at hl
  rcases hl with rfl | hl
  · rw [String.data_append, List.mem_append]
    rintro (h1 | h2)
    · revert h1; decide
    · exact hw.1 h2
  · exact (hw.2.1 l hl).1

/-- The parsing loop on a listing made of well-formed records gives the entries of the
records, in order. -/
theorem parseWorktrees_records (rs : List Record) (h : ∀ r ∈ rs, r.WellFormed) :
    parseWorktrees (listing rs) = rs.filterMap Record.entry := by
  rw [parseWorktrees_eq, listing]
  cases rs with
  | nil => rfl
  | cons r rs =>
    rw [Split_intercalate _ (by simp [Record.lines]) (lines_no_newline _ h), outerRest_records _ h]

theorem branchOfLine_heads (name : String) :
    branchOfLine ("branch refs/heads/" ++ name) = TrimSpace name := by
  rw [branchOfLine, TrimPrefix, if_pos (HasPrefix_append _ _)]
  rfl

theorem dropWhile_of_head (cs : List Char) (h : ∀ c ∈ cs.head?, IsSpace c = false) :
    cs.dropWhile IsSpace = cs := by
  cases cs with
  | nil => rfl
  | cons c cs =>
    have hc : IsSpace c = false := h c (by simp)
    simp [List.dropWhile, hc]

theorem TrimSpace_of_edgeClean (name : String) (h : EdgeClean name) : TrimSpace name = name := by
  rw [TrimSpace, dropWhile_of_head _ h.1, trimRight, dropWhile_of_head _ h.2, List.reverse_reverse]

/-- C1: for every porcelain listing made of records that each start with a `worktree <path>`
line and carry at most one `branch <ref>` line, the parsing loop of `GetWorktrees` yields one
entry per record that has a branch line and none for a record without one, in the order of the
records; so the number of entries is the number of records with a branch line. -/
theorem parseWorktrees_one_entry_per_branch_record (rs : List Record)
    (h : ∀ r ∈ rs, r.WellFormed) :
    parseWorktrees (listing rs) = rs.filterMap Record.entry ∧
    (parseWorktrees (listing rs)).length = rs.countP (fun r => r.branchLine.isSome) ∧
    ∀ r ∈ rs, r.branchLine = none → r.entry = none := by
  refine ⟨parseWorktrees_records rs h, ?_, ?_⟩
  · rw [parseWorktrees_records rs h]
    clear h
    induction rs with
    | nil => rfl
    | cons r rs ih =>
      cases hb : r.branchLine with
      | none => simp [List.filterMap_cons, Record.entry, hb, ih]
      | some b => simp [List.filterMap_cons, Record.entry, hb, ih]
  · intro r _ hb
    simp [Record.entry, hb]

/-- The two-record example: its listing is the text of the example and parses to `main`,
`feat`. -/
theorem parseWorktrees_spec_example :
    (∀ r ∈ exampleRecords, r.WellFormed) ∧
    listing exampleRecords
      = "worktree /repos/proj/main\nbranch refs/heads/main\n\nworktree /repos/proj/feat\nbranch refs/heads/feat\n" ∧
    parseWorktrees
        "worktree /repos/proj/main\nbranch refs/heads/main\n\nworktree /repos/proj/feat\nbranch refs/heads/feat\n"
      = ["main", "feat"] ∧
    exampleRecords.countP (fun r => r.branchLine.isSome) = 2 :=
  ⟨by decide, by decide,
    (parseWorktrees_one_entry_per_branch_record exampleRecords (by decide)).1, by decide⟩

/-- C2 (amended): in a listing made of well-formed records, the entry emitted for a record whose
branch line is `branch refs/heads/<name>` is `<name>` with the white space at its two ends
removed, placed between the entries of the records before and after it; it is `<name>`
itself when `<name>` neither starts nor ends with white space. -/
theorem parseWorktrees_heads_branch_name (before after : List Record) (r : Record)
    (name : String) (hwf : ∀ x ∈ before ++ r :: after, x.WellFormed)
    (hr : r.branchLine = some ("branch refs/heads/" ++ name)) :
    parseWorktrees (listing (before ++ r :: after))
      = parseWorktrees (listing before) ++ TrimSpace name :: parseWorktrees (listing after) ∧
    (EdgeClean name →
      parseWorktrees (listing (before ++ r :: after))
        = parseWorktrees (listing before) ++ name :: parseWorktrees (listing after)) := by
  have hb : ∀ x ∈ before, x.WellFormed := fun x hx => hwf x (by simp [hx])
  have ha : ∀ x ∈ after, x.WellFormed := fun x hx => hwf x (by simp [hx])
  have key : parseWorktrees (listing (before ++ r :: after))
      = parseWorktrees (listing before) ++ TrimSpace name :: parseWorktrees (listing after) := by
    rw [parseWorktrees_records _ hwf, parseWorktrees_records _ hb, parseWorktrees_records _ ha,
      List.filterMap_append, List.filterMap_cons]
    simp [Record.entry, hr, branchOfLine_heads]
  refine ⟨key, fun hc => ?_⟩
  rw [key, TrimSpace_of_edgeClean name hc]

/-- A listing with a nested branch name between a `main` record and a detached record. -/
theorem parseWorktrees_heads_branch_name_example :
    parseWorktrees (listing
        ([⟨"/repos/proj/main", ["HEAD 0a1b", "branch refs/heads/main", ""]⟩]
          ++ ⟨"/repos/proj/feature/x", ["HEAD 2c3d", "branch refs/heads/feature/x", ""]⟩
            :: [⟨"/repos/proj/tmp", ["HEAD 4e5f", "detached", ""]⟩]))
      = ["main"] ++ "feature/x" :: [] :=
  ((parseWorktrees_heads_branch_name
      [⟨"/repos/proj/main", ["HEAD 0a1b", "branch refs/heads/main", ""]⟩]
      [⟨"/repos/proj/tmp", ["HEAD 4e5f", "detached", ""]⟩]
      ⟨"/repos/proj/feature/x", ["HEAD 2c3d", "branch refs/heads/feature/x", ""]⟩
      "feature/x" (by decide) (by decide)).2 (by decide)).trans
    (by rw [parseWorktrees_eq, parseWorktrees_eq]; decide)

/-- C2 as stated fails: the emitted name is not always the ref without `refs/heads/`.  A ref
outside `refs/heads/` is emitted together with the keyword `branch `, and white space at the
end of a ref is removed. -/
theorem parseWorktrees_branch_name_not_ref :
    parseWorktrees "worktree /repos/proj/x\nbranch refs/remotes/origin/x\n"
      = ["branch refs/remotes/origin/x"] ∧
    TrimPrefix "refs/remotes/origin/x" "refs/heads/" = "refs/remotes/origin/x" ∧
    parseWorktrees "worktree /repos/proj/feat\nbranch refs/heads/feat \n" = ["feat"] ∧
    TrimPrefix "refs/heads/feat " "refs/heads/" = "feat " ∧
    ¬ (∀ path ref : String, '\n' ∉ path.data → '\n' ∉ ref.data →
        parseWorktrees ("worktree " ++ path ++ "\nbranch " ++ ref ++ "\n")
          = [TrimPrefix ref "refs/heads/"]) := by
  refine ⟨by rw [parseWorktrees_eq]; decide, by decide, by rw [parseWorktrees_eq]; decide,
    by decide, fun h => ?_⟩
  have h1 := h "/repos/proj/x" "refs/remotes/origin/x" (by decide) (by decide)
  rw [parseWorktrees_eq] at h1
  revert h1
  decide

/-- C3: the parsing loop of `GetWorktrees` returns the same branch list for a porcelain text
`s`, for `s` followed by one newline, and for `s` followed by any number `k` of newlines (a
terminating newline and further blank lines); a last line without a terminating newline is
parsed like a terminated one. -/
theorem parseWorktrees_trailing_newlines (s : String) :
    parseWorktrees (s ++ "\n") = parseWorktrees s ∧
    ∀ k : Nat, parseWorktrees (s ++ Repeat "\n" k) = parseWorktrees s := by
  have key : ∀ k : Nat, parseWorktrees (s ++ Repeat "\n" k) = parseWorktrees s := by
    intro k
    rw [parseWorktrees_eq, parseWorktrees_eq, Split_append_newlines, outerRest_append_blank]
  exact ⟨key 1, key⟩

/-! ### Traces -/

theorem commandsOf_append (a b : List Event) :
    commandsOf (a ++ b) = commandsOf a ++ commandsOf b := by
  induction a with
  | nil => rfl
  | cons e es ih => cases e <;> simp [commandsOf, ih]

theorem logf_st (format : String) (args : List String) (w : World σ) :
    (logf format args w).st = w.st := rfl

theorem commandsOf_logf (format : String) (args : List String) (w : World σ) :
    commandsOf (logf format args w).trace = commandsOf w.trace := by
  simp [logf, commandsOf_append, commandsOf]

theorem ChangeDirectory_st (os : OS σ) (path : String) (w : World σ) :
    (ChangeDirectory os path w).2.st = (os.chdir path w.st).2 := by
  cases h : (os.chdir path w.st).1 <;> simp [ChangeDirectory, h]

theorem ChangeDirectory_trace (os : OS σ) (path : String) (w : World σ) :
    (ChangeDirectory os path w).2.trace = w.trace ++ [Event.chdir path] := by
  cases h : (os.chdir path w.st).1 <;> simp [ChangeDirectory, h]

theorem commandsOf_ChangeDirectory (os : OS σ) (path : String) (w : World σ) :
    commandsOf (ChangeDirectory os path w).2.trace = commandsOf w.trace := by
  simp [ChangeDirectory_trace, commandsOf_append, commandsOf]

/-! ### The main/master check -/

theorem CheckMainOrMasterExists_main (os : OS σ) (repo : String) (w : World σ)
    (h : os.stat (Join [repo, "main"]) w.st = StatResult.info true) :
    CheckMainOrMasterExists os repo w = ("main", none) := by
  simp [CheckMainOrMasterExists, dirExists, h]

theorem CheckMainOrMasterExists_master (os : OS σ) (repo : String) (w : World σ)
    (hmain : os.stat (Join [repo, "main"]) w.st = StatResult.notExist ∨
      os.stat (Join [repo, "main"]) w.st = StatResult.info false)
    (h : os.stat (Join [repo, "master"]) w.st = StatResult.info true) :
    CheckMainOrMasterExists os repo w = ("master", none) := by
  rcases hmain with hm | hm <;> simp [CheckMainOrMasterExists, dirExists, hm, h]

theorem CheckMainOrMasterExists_failed (os : OS σ) (repo : String) (w : World σ) (e : String)
    (h : os.stat (Join [repo, "main"]) w.st = StatResult.failed e) :
    CheckMainOrMasterExists os repo w = ("", some e) := by
  simp [CheckMainOrMasterExists, dirExists, h]

theorem CheckMainOrMasterExists_neither (os : OS σ) (repo : String) (w : World σ)
    (hmain : os.stat (Join [repo, "main"]) w.st ≠ StatResult.info true)
    (hmaster : os.stat (Join [repo, "master"]) w.st ≠ StatResult.info true) :
    (CheckMainOrMasterExists os repo w).1 = "" ∧ (CheckMainOrMasterExists os repo w).2.isSome := by
  unfold CheckMainOrMasterExists dirExists
  cases hm : os.stat (Join [repo, "main"]) w.st with
  | notExist =>
    cases hs : os.stat (Join [repo, "master"]) w.st with
    | notExist => simp
    | failed e => simp
    | info d => cases d <;> simp_all
  | failed e => simp
  | info d =>
    cases d
    · cases hs : os.stat (Join [repo, "master"]) w.st with
      | notExist => simp
      | failed e => simp
      | info d => cases d <;> simp_all
    · exact absurd hm hmain

/-- The outcome of the check is an accepted name without an error, or no name with an
error. -/
theorem CheckMainOrMasterExists_shape (os : OS σ) (repo : String) (w : World σ) :
    (CheckMainOrMasterExists os repo w = ("main", none) ∧
      os.stat (Join [repo, "main"]) w.st = StatResult.info true) ∨
    (CheckMainOrMasterExists os repo w = ("master", none) ∧
      os.stat (Join [repo, "master"]) w.st = StatResult.info true) ∨
    ((CheckMainOrMasterExists os repo w).1 = "" ∧ (CheckMainOrMasterExists os repo w).2.isSome) := by
  by_cases hm : os.stat (Join [repo, "main"]) w.st = StatResult.info true
  · exact Or.inl ⟨CheckMainOrMasterExists_main os repo w hm, hm⟩
  · by_cases hs : os.stat (Join [repo, "master"]) w.st = StatResult.info true
    · cases hm2 : os.stat (Join [repo, "main"]) w.st with
      | notExist => exact Or.inr (Or.inl ⟨CheckMainOrMasterExists_master os repo w (Or.inl hm2) hs, hs⟩)
      | failed e => exact Or.inr (Or.inr (by simp [CheckMainOrMasterExists_failed os repo w e hm2]))
      | info d =>
        cases d
        · exact Or.inr (Or.inl ⟨CheckMainOrMasterExists_master os repo w (Or.inr hm2) hs, hs⟩)
        · exact absurd hm2 hm
    · exact Or.inr (Or.inr (CheckMainOrMasterExists_neither os repo w hm hs))

/-- C4 (amended): `CheckMainOrMasterExists` returns `main` whenever `main` is a directory (also
when `master` is one too); returns `master` when `os.Stat` reports `main` absent or not a
directory and `master` is a directory; returns the error of `os.Stat` with an empty name when
the stat of `main` fails otherwise; returns an error with an empty name when neither is a
directory.  `AddWorktree` then returns an error without running any command when neither is
a directory. -/
theorem CheckMainOrMasterExists_spec (os : OS σ) (repo : String) (w : World σ) :
    (os.stat (Join [repo, "main"]) w.st = StatResult.info true →
      CheckMainOrMasterExists os repo w = ("main", none)) ∧
    ((os.stat (Join [repo, "main"]) w.st = StatResult.notExist ∨
        os.stat (Join [repo, "main"]) w.st = StatResult.info false) →
      os.stat (Join [repo, "master"]) w.st = StatResult.info true →
      CheckMainOrMasterExists os repo w = ("master", none)) ∧
    (∀ e, os.stat (Join [repo, "main"]) w.st = StatResult.failed e →
      CheckMainOrMasterExists os repo w = ("", some e)) ∧
    (os.stat (Join [repo, "main"]) w.st ≠ StatResult.info true →
      os.stat (Join [repo, "master"]) w.st ≠ StatResult.info true →
      (CheckMainOrMasterExists os repo w).1 = "" ∧
        (CheckMainOrMasterExists os repo w).2.isSome) ∧
    (∀ path newBranchName : String,
      os.stat "main" (os.chdir path w.st).2 ≠ StatResult.info true →
      os.stat "master" (os.chdir path w.st).2 ≠ StatResult.info true →
      ∃ e w1, AddWorktree os path newBranchName w = Result.returned (some e) w1 ∧
        commandsOf w1.trace = commandsOf w.trace) := by
  refine ⟨CheckMainOrMasterExists_main os repo w, CheckMainOrMasterExists_master os repo w,
    fun e => CheckMainOrMasterExists_failed os repo w e,
    CheckMainOrMasterExists_neither os repo w, ?_⟩
  intro path newBranchName hmain hmaster
  cases hd : (ChangeDirectory os path w).1 with
  | some e =>
    simp only [AddWorktree, hd]
    exact ⟨_, _, rfl, commandsOf_ChangeDirectory os path w⟩
  | none =>
    have hj1 : Join [".", "main"] = "main" := by decide
    have hj2 : Join [".", "master"] = "master" := by decide
    have hc := CheckMainOrMasterExists_neither os "." (ChangeDirectory os path w).2
      (by rw [hj1, ChangeDirectory_st]; exact hmain)
      (by rw [hj2, ChangeDirectory_st]; exact hmaster)
    obtain ⟨e, he⟩ := Option.isSome_iff_exists.mp hc.2
    simp only [AddWorktree, hd]
    rw [if_pos (Or.inr hc.1), he]
    exact ⟨e, _, rfl, by rw [commandsOf_logf, commandsOf_ChangeDirectory]⟩

/-- A repository with `master` only gives `master`; a directory with neither makes
`AddWorktree` fail before any command. -/
theorem CheckMainOrMasterExists_spec_example :
    CheckMainOrMasterExists masterOnly.os "proj" World.start = ("master", none) ∧
    ∃ e w1, AddWorktree (Fixture.os ⟨[], [], [], []⟩) "/repos/empty" "feat" World.start
        = Result.returned (some e) w1 ∧
      commandsOf w1.trace = commandsOf World.start.trace :=
  ⟨(CheckMainOrMasterExists_spec masterOnly.os "proj" World.start).2.1
      (Or.inl (by decide)) (by decide),
    (CheckMainOrMasterExists_spec (Fixture.os ⟨[], [], [], []⟩) "proj" World.start).2.2.2.2
      "/repos/empty" "feat" (by decide) (by decide)⟩

/-- C4 as stated fails: with `main` not a directory (its stat fails) and `master` a
directory, the result is not `master` but an empty name with the stat error. -/
theorem CheckMainOrMasterExists_main_stat_error :
    loopingMain.os.stat (Join ["proj", "main"]) World.start.st ≠ StatResult.info true ∧
    loopingMain.os.stat (Join ["proj", "master"]) World.start.st = StatResult.info true ∧
    CheckMainOrMasterExists loopingMain.os "proj" World.start
      = ("", some "stat proj/main: too many levels of symbolic links") ∧
    CheckMainOrMasterExists loopingMain.os "proj" World.start ≠ ("master", none) := by
  decide

/-! ### The scan of the root -/

theorem scanLoop_fst (os : OS σ) (dirs : List String) (w : World σ) :
    (scanLoop os dirs w).1
      = dirs.filter (fun dir => (CheckMainOrMasterExists os dir ⟨w.st, []⟩).2.isNone) := by
  induction dirs generalizing w with
  | nil => rfl
  | cons dir dirs ih =>
    have hw : CheckMainOrMasterExists os dir w = CheckMainOrMasterExists os dir ⟨w.st, []⟩ := rfl
    rw [scanLoop]
    simp only [hw]
    by_cases hc : (CheckMainOrMasterExists os dir ⟨w.st, []⟩).2.isSome = true ∧
        (CheckMainOrMasterExists os dir ⟨w.st, []⟩).1 = ""
    · have hsome : (CheckMainOrMasterExists os dir ⟨w.st, []⟩).2.isNone = false := by
        cases hx : (CheckMainOrMasterExists os dir ⟨w.st, []⟩).2 with
        | none => rw [hx] at hc; exact absurd hc.1 (by simp)
        | some e => rfl
      rw [if_pos hc, ih, logf_st]
      simp [List.filter_cons, hsome]
    · rw [if_neg hc]
      have hnone : (CheckMainOrMasterExists os dir ⟨w.st, []⟩).2.isNone = true := by
        rcases CheckMainOrMasterExists_shape os dir ⟨w.st, []⟩ with h | h | h
        · rw [h.1]; rfl
        · rw [h.1]; rfl
        · exact absurd ⟨h.2, h.1⟩ hc
      simp [List.filter_cons, hnone, ih]

theorem SetupLayoutContentMenus_fst (os : OS σ) (path : String) (w : World σ) :
    (SetupLayoutContentMenus os path w).1
      = (ListDirectories os path ⟨(os.chdir path w.st).2, []⟩).1.filter
          (fun dir => (CheckMainOrMasterExists os dir ⟨(os.chdir path w.st).2, []⟩).2.isNone) := by
  have h1 : ∀ w1 : World σ, w1.st = (os.chdir path w.st).2 →
      ListDirectories os path w1 = ListDirectories os path ⟨(os.chdir path w.st).2, []⟩ := by
    intro w1 h; simp [ListDirectories, h]
  have hst : (match (ChangeDirectory os path w).1 with
      | some e => logf "Failed to change directory to %v: %v" [path, e] (ChangeDirectory os path w).2
      | none => (ChangeDirectory os path w).2).st = (os.chdir path w.st).2 := by
    split <;> simp [logf_st, ChangeDirectory_st]
  simp only [SetupLayoutContentMenus]
  rw [scanLoop_fst, h1 _ hst]
  congr 2
  · split <;> simp [logf_st, hst]

/-- The names listed by the scan are directory entries of `os.ReadDir(path)`, in its order,
namely those for which the check of the bare name succeeds; each has `main` or `master` a
directory under the name as the operating system resolves it at the time of the scan. -/
theorem SetupLayoutContentMenus_listed (os : OS σ) (path : String) (w : World σ) :
    (∀ dir ∈ (SetupLayoutContentMenus os path w).1,
      (∃ entries, os.readDir path (os.chdir path w.st).2 = Except.ok entries ∧
        (⟨dir, true⟩ : DirEntry) ∈ entries) ∧
      (os.stat (Join [dir, "main"]) (os.chdir path w.st).2 = StatResult.info true ∨
        os.stat (Join [dir, "master"]) (os.chdir path w.st).2 = StatResult.info true)) ∧
    (∀ entries, os.readDir path (os.chdir path w.st).2 = Except.ok entries →
      (SetupLayoutContentMenus os path w).1
        = ((entries.filter (fun file => file.isDir)).map (fun file => file.name)).filter
            (fun dir =>
              (CheckMainOrMasterExists os dir ⟨(os.chdir path w.st).2, []⟩).2.isNone) ∧
      ∀ dir, (⟨dir, true⟩ : DirEntry) ∈ entries →
        (os.stat (Join [dir, "main"]) (os.chdir path w.st).2 = StatResult.info true ∨
          ((os.stat (Join [dir, "main"]) (os.chdir path w.st).2 = StatResult.notExist ∨
              os.stat (Join [dir, "main"]) (os.chdir path w.st).2 = StatResult.info false) ∧
            os.stat (Join [dir, "master"]) (os.chdir path w.st).2 = StatResult.info true)) →
        dir ∈ (SetupLayoutContentMenus os path w).1) := by
  rw [SetupLayoutContentMenus_fst]
  constructor
  · intro dir hdir
    rw [List.mem_filter] at hdir
    obtain ⟨hmem, hck⟩ := hdir
    constructor
    · unfold ListDirectories at hmem
      cases hr : os.readDir path (os.chdir path w.st).2 with
      | error e => simp [hr] at hmem
      | ok entries =>
        simp only [hr, List.mem_map, List.mem_filter] at hmem
        obtain ⟨file, ⟨hf, hd⟩, rfl⟩ := hmem
        refine ⟨entries, rfl, ?_⟩
        have : file = ⟨file.name, true⟩ := by cases file; simp_all
        rw [← this]; exact hf
    · rcases CheckMainOrMasterExists_shape os dir ⟨(os.chdir path w.st).2, []⟩ with h | h | h
      · exact Or.inl h.2
      · exact Or.inr h.2
      · rw [Option.isNone_iff_eq_none] at hck
        rw [hck] at h
        exact absurd h.2 (by simp)
  · intro entries hr
    have hl : (ListDirectories os path ⟨(os.chdir path w.st).2, []⟩).1
        = (entries.filter (fun file => file.isDir)).map (fun file => file.name) := by
      simp [ListDirectories, hr]
    rw [hl]
    refine ⟨rfl, fun dir hdir hstat => ?_⟩
    rw [List.mem_filter]
    constructor
    · rw [List.mem_map]
      exact ⟨⟨dir, true⟩, List.mem_filter.mpr ⟨hdir, rfl⟩, rfl⟩
    · rcases hstat with h | ⟨h1, h2⟩
      · rw [CheckMainOrMasterExists_main os dir _ h]; rfl
      · rw [CheckMainOrMasterExists_master os dir _ h1 h2]; rfl

/-- C5 (amended): the names that the scan of a root puts in the repository list are directory
entries of the root as `os.ReadDir` returns them (never an entry that is not a directory),
in that order, namely the entries for which `CheckMainOrMasterExists` of the bare name
succeeds: each has `<name>/main` or `<name>/master` a directory where the operating system
resolves these relative names at the time of the scan; a candidate whose check fails is left
out and the candidates after it are still examined.  Whenever the relative names resolve
inside the root, every listed name has `main` or `master` a directory in the root. -/
theorem scan_lists_repositories_resolved (os : OS σ) (path : String) (w : World σ) :
    (∀ dir ∈ (SetupLayoutContentMenus os path w).1,
      (∃ entries, os.readDir path (os.chdir path w.st).2 = Except.ok entries ∧
        (⟨dir, true⟩ : DirEntry) ∈ entries) ∧
      (os.stat (Join [dir, "main"]) (os.chdir path w.st).2 = StatResult.info true ∨
        os.stat (Join [dir, "master"]) (os.chdir path w.st).2 = StatResult.info true)) ∧
    (∀ entries, os.readDir path (os.chdir path w.st).2 = Except.ok entries →
      (SetupLayoutContentMenus os path w).1
        = ((entries.filter (fun file => file.isDir)).map (fun file => file.name)).filter
            (fun dir =>
              (CheckMainOrMasterExists os dir ⟨(os.chdir path w.st).2, []⟩).2.isNone) ∧
      ∀ dir, (⟨dir, true⟩ : DirEntry) ∈ entries →
        (os.stat (Join [dir, "main"]) (os.chdir path w.st).2 = StatResult.info true ∨
          ((os.stat (Join [dir, "main"]) (os.chdir path w.st).2 = StatResult.notExist ∨
              os.stat (Join [dir, "main"]) (os.chdir path w.st).2 = StatResult.info false) ∧
            os.stat (Join [dir, "master"]) (os.chdir path w.st).2 = StatResult.info true)) →
        dir ∈ (SetupLayoutContentMenus os path w).1) ∧
    (ResolvesInside os path (os.chdir path w.st).2 →
      ∀ dir ∈ (SetupLayoutContentMenus os path w).1,
        (∃ entries, os.readDir path (os.chdir path w.st).2 = Except.ok entries ∧
          (⟨dir, true⟩ : DirEntry) ∈ entries) ∧
        (os.stat (Join [path, dir, "main"]) (os.chdir path w.st).2 = StatResult.info true ∨
          os.stat (Join [path, dir, "master"]) (os.chdir path w.st).2
            = StatResult.info true)) := by
  have h := SetupLayoutContentMenus_listed os path w
  refine ⟨h.1, h.2, fun hres dir hdir => ?_⟩
  obtain ⟨⟨entries, hr, hmem⟩, hstat⟩ := h.1 dir hdir
  have hrel := hres entries hr ⟨dir, true⟩ hmem rfl
  refine ⟨⟨entries, hr, hmem⟩, ?_⟩
  rcases hstat with hm | hm
  · exact Or.inl (hrel.1 ▸ hm)
  · exact Or.inr (hrel.2 ▸ hm)

/-- The scan of `/repos` entered from `/`: the file and the directory without `main` or
`master` are left out, the two repositories after them are listed, and both have `main` or
`master` in `/repos`. -/
theorem scan_lists_repositories_resolved_example :
    (SetupLayoutContentMenus reposDisk.os "/repos" ⟨"/", []⟩).1 = ["old", "proj"] ∧
    "old" ∈ (SetupLayoutContentMenus reposDisk.os "/repos" ⟨"/", []⟩).1 ∧
    ∀ dir ∈ (SetupLayoutContentMenus reposDisk.os "/repos" ⟨"/", []⟩).1,
      (∃ entries, reposDisk.os.readDir "/repos" (reposDisk.os.chdir "/repos" "/").2
          = Except.ok entries ∧ (⟨dir, true⟩ : DirEntry) ∈ entries) ∧
      (reposDisk.os.stat (Join ["/repos", dir, "main"]) (reposDisk.os.chdir "/repos" "/").2
          = StatResult.info true ∨
        reposDisk.os.stat (Join ["/repos", dir, "master"]) (reposDisk.os.chdir "/repos" "/").2
          = StatResult.info true) :=
  ⟨((scan_lists_repositories_resolved reposDisk.os "/repos" ⟨"/", []⟩).2.1
      [⟨"empty", true⟩, ⟨"notes.txt", false⟩, ⟨"old", true⟩, ⟨"proj", true⟩] rfl).1.trans
      (by decide),
    ((scan_lists_repositories_resolved reposDisk.os "/repos" ⟨"/", []⟩).2.1
      [⟨"empty", true⟩, ⟨"notes.txt", false⟩, ⟨"old", true⟩, ⟨"proj", true⟩] rfl).2
      "old" (by decide) (Or.inr ⟨Or.inr (by decide), by decide⟩),
    (scan_lists_repositories_resolved reposDisk.os "/repos" ⟨"/", []⟩).2.2
      (fun entries hr => by
        have he : [⟨"empty", true⟩, ⟨"notes.txt", false⟩, ⟨"old", true⟩, ⟨"proj", true⟩]
            = entries := Except.ok.inj hr
        subst he
        decide)⟩

/-- C5 as stated fails: the change of directory to a root that can be read but not entered
fails and is only logged; the scan then lists the entry `proj` of the root, which has
neither `main` nor `master`, because the working directory has a `proj/main`. -/
theorem scan_lists_directory_lacking_both :
    (lockedRoot.os.chdir "/srv/repos" "/home/u").1 = some "permission denied" ∧
    lockedRoot.os.readDir "/srv/repos" "/home/u" = Except.ok [⟨"proj", true⟩] ∧
    (SetupLayoutContentMenus lockedRoot.os "/srv/repos" ⟨"/home/u", []⟩).1 = ["proj"] ∧
    lockedRoot.os.stat (Join ["/srv/repos", "proj", "main"]) "/home/u" = StatResult.notExist ∧
    lockedRoot.os.stat (Join ["/srv/repos", "proj", "master"]) "/home/u"
      = StatResult.notExist ∧
    lockedRoot.os.readDir (Join ["/srv/repos", "proj"]) "/home/u" = Except.ok [] :=
  ⟨by decide, rfl, by decide, by decide, by decide, rfl⟩

/-! ### Commands under the deadline -/

theorem timedOut_isSome (os : OS σ) (argv : List String) (w : World σ) :
    (timedOut os argv w).1.isSome = true := by
  cases h : (os.kill argv w.st).1 <;> simp [timedOut, h]

theorem commandsOf_timedOut (os : OS σ) (argv : List String) (w : World σ) :
    commandsOf (timedOut os argv w).2.trace = commandsOf w.trace := by
  cases h : (os.kill argv w.st).1 <;> simp [timedOut, h, commandsOf_append, commandsOf]

theorem commandsOf_execCommand (os : OS σ) (argv : List String) (w : World σ) :
    commandsOf (execCommand os argv w).2.trace = commandsOf w.trace ++ [argv] := by
  cases h : (os.spawn argv w.st).1 with
  | startFails e => simp [execCommand, h, commandsOf_append, commandsOf]
  | exits t code so se =>
    by_cases ht : t < deadlineSeconds
    · simp [execCommand, h, ht, commandsOf_append, commandsOf]
    · simp [execCommand, h, ht, commandsOf_timedOut, commandsOf_append, commandsOf]
  | hangs => simp [execCommand, h, commandsOf_timedOut, commandsOf_append, commandsOf]

theorem execCommand_eq_none_iff (os : OS σ) (argv : List String) (w : World σ) :
    (execCommand os argv w).1 = none ↔
      ∃ t so se, (os.spawn argv w.st).1 = Proc.exits t 0 so se ∧ t < deadlineSeconds := by
  have hto : ∀ w1 : World σ, (timedOut os argv w1).1 ≠ none := fun w1 h => by
    have := timedOut_isSome os argv w1
    rw [h] at this
    exact absurd this (by simp)
  cases h : (os.spawn argv w.st).1 with
  | startFails e => simp [execCommand, h]
  | exits t code so se =>
    by_cases ht : t < deadlineSeconds
    · by_cases hc : code = 0
      · simp [execCommand, h, ht, hc]
      · simp [execCommand, h, ht, hc]
    · simp only [execCommand, h, ht, if_false, hto, false_iff]
      rintro ⟨t1, so1, se1, he, hlt⟩
      injection he with h1
      exact ht (h1 ▸ hlt)
  | hangs => simp [execCommand, h, hto]

theorem commandsOf_removePreamble (os : OS σ) (path branchName : String) (w : World σ) :
    commandsOf (removePreamble os path branchName w).trace = commandsOf w.trace := by
  have hm : ∀ (o : Option String) (format : String) (w1 : World σ),
      commandsOf (match o with
        | some e => logf format [e] w1
        | none => w1).trace = commandsOf w1.trace := by
    intro o format w1
    cases o <;> simp [commandsOf_logf]
  have hi : ∀ (c : Prop) [Decidable c] (format : String) (args : List String) (w1 : World σ),
      commandsOf (if c then logf format args w1 else w1).trace = commandsOf w1.trace := by
    intro c _ format args w1
    split <;> simp [commandsOf_logf]
  simp only [removePreamble, commandsOf_logf, hm, hi, commandsOf_ChangeDirectory]

/-- C6: in `RemoveWorktree` the command `git worktree remove <path>` is the first command
issued.  It succeeds exactly when the process exits with status 0 before the deadline; when
it fails (non-zero exit, start failure or timeout) `RemoveWorktree` returns an error and
`git branch -D <branchName>` is never issued; when it succeeds `git branch -D <branchName>`
is issued next, after it. -/
theorem RemoveWorktree_branch_delete_only_after_remove (os : OS σ) (path branchName : String)
    (w : World σ) :
    commandsOf (removePreamble os path branchName w).trace = commandsOf w.trace ∧
    ((execCommand os ["git", "worktree", "remove", path]
          (removePreamble os path branchName w)).1 = none ↔
      ∃ t so se, (os.spawn ["git", "worktree", "remove", path]
          (removePreamble os path branchName w).st).1 = Proc.exits t 0 so se ∧
        t < deadlineSeconds) ∧
    (∀ err, (execCommand os ["git", "worktree", "remove", path]
          (removePreamble os path branchName w)).1 = some err →
      (RemoveWorktree os path branchName w).1 = some ("failed to remove worktree: " ++ err) ∧
      commandsOf (RemoveWorktree os path branchName w).2.trace
        = commandsOf w.trace ++ [["git", "worktree", "remove", path]]) ∧
    ((execCommand os ["git", "worktree", "remove", path]
          (removePreamble os path branchName w)).1 = none →
      commandsOf (RemoveWorktree os path branchName w).2.trace
        = commandsOf w.trace
          ++ [["git", "worktree", "remove", path], ["git", "branch", "-D", branchName]]) := by
  refine ⟨commandsOf_removePreamble os path branchName w, execCommand_eq_none_iff _ _ _, ?_, ?_⟩
  · intro err he
    simp only [RemoveWorktree, he]
    exact ⟨trivial, by rw [commandsOf_execCommand, commandsOf_removePreamble]⟩
  · intro he
    simp only [RemoveWorktree, he]
    have hb : ∀ (b : Option String × World σ),
        commandsOf (match b.1 with
          | some e => (some ("failed to delete branch: " ++ e), b.2)
          | none => (none, b.2)).2.trace = commandsOf b.2.trace := by
      intro b; cases b.1 <;> rfl
    rw [hb, commandsOf_execCommand, commandsOf_logf, commandsOf_execCommand,
      commandsOf_removePreamble]
    simp

/-- A failing `git worktree remove` is the only command of the call; a successful one is
followed by `git branch -D`. -/
theorem RemoveWorktree_failed_remove_example :
    ((RemoveWorktree removeFails.os "/repos/proj/feat" "feat" World.start).1
        = some ("failed to remove worktree: " ++ "command failed: fatal: working tree is dirty") ∧
      commandsOf (RemoveWorktree removeFails.os "/repos/proj/feat" "feat" World.start).2.trace
        = commandsOf World.start.trace ++ [["git", "worktree", "remove", "/repos/proj/feat"]]) ∧
    commandsOf (RemoveWorktree plainRepo.os "/repos/proj/feat" "feat" World.start).2.trace
      = commandsOf World.start.trace
        ++ [["git", "worktree", "remove", "/repos/proj/feat"], ["git", "branch", "-D", "feat"]] :=
  ⟨(RemoveWorktree_branch_delete_only_after_remove removeFails.os "/repos/proj/feat" "feat"
      World.start).2.2.1 "command failed: fatal: working tree is dirty" (by decide),
    (RemoveWorktree_branch_delete_only_after_remove plainRepo.os "/repos/proj/feat" "feat"
      World.start).2.2.2 (by decide)⟩

/-- C7 fails for `AddWorktree`: when `git worktree add` exits with status 128 and a message on
its standard error, the error returned is `exit status 128`, without the message (the
command is run with `cmd.Run()`, not with `execCommand`); the same failure of
`git worktree remove` in `RemoveWorktree` carries the message. -/
theorem AddWorktree_error_lacks_stderr :
    (addConflict.os.spawn (worktreeAddArgv "feat" "main") World.start.st).1
      = Proc.exits 1 128 "" "fatal: a branch named feat already exists" ∧
    (AddWorktree addConflict.os "/repos/proj" "feat" World.start).value?
      = some (some "exit status 128") ∧
    (RemoveWorktree removeFails.os "/repos/proj/feat" "feat" World.start).1
      = some "failed to remove worktree: command failed: fatal: working tree is dirty" := by
  decide

/-- C8 fails for `AddWorktree`: when `git worktree add` never terminates, `AddWorktree` never
returns and the process is not killed (the command is run with `cmd.Run()`, which has no
deadline); a `git worktree remove` that never terminates is killed and `RemoveWorktree`
returns the timeout error. -/
theorem AddWorktree_no_deadline :
    (addHangs.os.spawn (worktreeAddArgv "feat" "main") World.start.st).1 = Proc.hangs ∧
    (AddWorktree addHangs.os "/repos/proj" "feat" World.start).value? = none ∧
    Event.kill (worktreeAddArgv "feat" "main")
      ∉ (AddWorktree addHangs.os "/repos/proj" "feat" World.start).world.trace ∧
    (RemoveWorktree removeHangs.os "/repos/proj/feat" "feat" World.start).1
      = some "failed to remove worktree: command timed out" ∧
    Event.kill ["git", "worktree", "remove", "/repos/proj/feat"]
      ∈ (RemoveWorktree removeHangs.os "/repos/proj/feat" "feat" World.start).2.trace := by
  decide

/-! ### `AddWorktree` and the branch name -/

theorem CheckMainOrMasterExists_congr (os : OS σ) (repo : String) (w1 w2 : World σ)
    (h : w1.st = w2.st) :
    CheckMainOrMasterExists os repo w1 = CheckMainOrMasterExists os repo w2 := by
  simp [CheckMainOrMasterExists, dirExists, h]

theorem ChangeDirectory_fst_none (os : OS σ) (path : String) (w : World σ)
    (h : (os.chdir path w.st).1 = none) : (ChangeDirectory os path w).1 = none := by
  simp [ChangeDirectory, h]

theorem commandsOf_copyFile (os : OS σ) (src dst : String) (w : World σ) :
    commandsOf (copyFile os src dst w).2.trace = commandsOf w.trace := by
  unfold copyFile
  cases os.openFile src w.st with
  | some e => rfl
  | none =>
    simp only []
    cases (os.createFile dst w.st).1 with
    | some e => simp [commandsOf_append, commandsOf]
    | none =>
      simp only []
      split <;> simp [commandsOf_append, commandsOf]

theorem commandsOf_PrepareDestinationConfig (os : OS σ) (branchName : String) (w : World σ) :
    commandsOf (PrepareDestinationConfig os branchName w).2.trace = commandsOf w.trace := by
  unfold PrepareDestinationConfig
  split
  · exact commandsOf_logf _ _ _
  · simp only []
    split <;> exact commandsOf_copyFile _ _ _ _

/-- C9 (amended): `AddWorktree` does not check `newBranchName`.  For every name, also an empty
one or one with white space, once its two directory changes and the main/master check succeed
it runs `git worktree add -b <name> <Join("..", name)> <main or master>` with the name as
given.  The checks are in the handlers of `showWorktreeModal`: the input field refuses a text
exactly when it contains a space, and the `Add` handler given an empty name only logs and
does not call `AddWorktree`. -/
theorem AddWorktree_passes_any_branch_name (os : OS σ) (path newBranchName : String)
    (w : World σ)
    (hcd : (os.chdir path w.st).1 = none)
    (hck : (CheckMainOrMasterExists os "." ⟨(os.chdir path w.st).2, []⟩).2 = none)
    (hcm : (os.chdir (CheckMainOrMasterExists os "." ⟨(os.chdir path w.st).2, []⟩).1
      (os.chdir path w.st).2).1 = none) :
    commandsOf (AddWorktree os path newBranchName w).world.trace
      = commandsOf w.trace ++ [["git", "worktree", "add", "-b", newBranchName,
          Join ["..", newBranchName],
          (CheckMainOrMasterExists os "." ⟨(os.chdir path w.st).2, []⟩).1]] ∧
    ((acceptBranchName newBranchName w).1 = false ↔ ' ' ∈ newBranchName.data) ∧
    (addButton os path "" w).world.trace
      = w.trace ++ [Event.log "Adding new worktree" [], Event.log "Branch name cannot be empty" []] := by
  refine ⟨?_, ?_, ?_⟩
  · have hd := ChangeDirectory_fst_none os path w hcd
    have hc : CheckMainOrMasterExists os "." (ChangeDirectory os path w).2
        = CheckMainOrMasterExists os "." ⟨(os.chdir path w.st).2, []⟩ :=
      CheckMainOrMasterExists_congr os "." _ _ (ChangeDirectory_st os path w)
    have hne : (CheckMainOrMasterExists os "." ⟨(os.chdir path w.st).2, []⟩).1 ≠ "" := by
      rcases CheckMainOrMasterExists_shape os "." ⟨(os.chdir path w.st).2, []⟩ with h | h | h
      · rw [h.1]; decide
      · rw [h.1]; decide
      · rw [hck] at h; exact absurd h.2 (by simp)
    have hm : (ChangeDirectory os
        (CheckMainOrMasterExists os "." ⟨(os.chdir path w.st).2, []⟩).1
        (ChangeDirectory os path w).2).1 = none :=
      ChangeDirectory_fst_none _ _ _ (by rw [ChangeDirectory_st]; exact hcm)
    simp only [AddWorktree, hd, hc, hck, hm, CreateNewBranch, Run]
    rw [if_neg (by simp [hne])]
    generalize hw : (logf "Adding worktree %v" [newBranchName] (ChangeDirectory os
      (CheckMainOrMasterExists os "." ⟨(os.chdir path w.st).2, []⟩).1
      (ChangeDirectory os path w).2).2) = w2
    have hw2 : commandsOf w2.trace = commandsOf w.trace := by
      rw [← hw, commandsOf_logf, commandsOf_ChangeDirectory, commandsOf_ChangeDirectory]
    cases hp : (os.spawn (worktreeAddArgv newBranchName
        (CheckMainOrMasterExists os "." ⟨(os.chdir path w.st).2, []⟩).1) w2.st).1 with
    | startFails e =>
      simp [Result.world, commandsOf_logf, commandsOf_append, commandsOf, hw2, worktreeAddArgv]
    | hangs =>
      simp [Result.world, commandsOf_append, commandsOf, hw2, worktreeAddArgv]
    | exits t code so se =>
      by_cases hcode : code = 0
      · simp only [hcode, if_true]
        split <;>
          simp [Result.world, commandsOf_logf, commandsOf_PrepareDestinationConfig,
            commandsOf_append, commandsOf, hw2, worktreeAddArgv]
      · simp [hcode, Result.world, commandsOf_logf, commandsOf_append, commandsOf, hw2,
          worktreeAddArgv]
  · unfold acceptBranchName ContainsSpace
    by_cases h : ' ' ∈ newBranchName.data <;> simp [h]
  · simp [addButton, Result.world, logf]

/-- A name with a tab is accepted by the input field and reaches `git worktree add`. -/
theorem AddWorktree_passes_any_branch_name_example :
    commandsOf (AddWorktree plainRepo.os "/repos/proj" "my\tbranch" World.start).world.trace
      = commandsOf World.start.trace
        ++ [["git", "worktree", "add", "-b", "my\tbranch", Join ["..", "my\tbranch"], "main"]] ∧
    (acceptBranchName "my\tbranch" World.start).1 = true :=
  ⟨(AddWorktree_passes_any_branch_name plainRepo.os "/repos/proj" "my\tbranch" World.start
      (by decide) (by decide) (by decide)).1, by decide⟩

/-- C9 as stated fails: `AddWorktree` called with `my new branch`, and with the empty name,
returns without an error after running `git worktree add` with that name. -/
theorem AddWorktree_accepts_invalid_names :
    (AddWorktree plainRepo.os "/repos/proj" "my new branch" World.start).value? = some none ∧
    commandsOf (AddWorktree plainRepo.os "/repos/proj" "my new branch" World.start).world.trace
      = [["git", "worktree", "add", "-b", "my new branch", "../my new branch", "main"]] ∧
    (AddWorktree plainRepo.os "/repos/proj" "" World.start).value? = some none ∧
    commandsOf (AddWorktree plainRepo.os "/repos/proj" "" World.start).world.trace
      = [["git", "worktree", "add", "-b", "", "..", "main"]] := by
  decide

/-! ### The ascent of `RemoveWorktree` -/

theorem length_splitChars (sep : Char) (cs : List Char) :
    (splitChars sep cs).length = cs.count sep + 1 := by
  induction cs with
  | nil => rfl
  | cons c cs ih =>
    rw [splitChars]
    by_cases hc : c = sep
    · rw [if_pos hc, List.length_cons, ih, hc, List.count_cons_self]
    · rw [if_neg hc]
      have hcount : (c :: cs).count sep = cs.count sep := by
        simp [List.count_cons, hc]
      rw [hcount, ← ih]
      cases hs : splitChars sep cs with
      | nil => exact absurd hs (splitChars_ne_nil sep cs)
      | cons l ls => rfl

theorem length_Segments (branchName : String) :
    (Segments branchName).length = CountSlash branchName + 1 := by
  rw [Segments, List.length_map, length_splitChars, CountSlash]

theorem execCommand_trace (os : OS σ) (argv : List String) (w : World σ) :
    ∃ t, (execCommand os argv w).2.trace = w.trace ++ t := by
  have hto : ∀ w1 : World σ, ∃ t, (timedOut os argv w1).2.trace = w1.trace ++ t := by
    intro w1
    cases h : (os.kill argv w1.st).1 <;> exact ⟨_, by simp [timedOut, h]; rfl⟩
  cases h : (os.spawn argv w.st).1 with
  | startFails e => exact ⟨_, by simp [execCommand, h]; rfl⟩
  | exits t code so se =>
    by_cases ht : t < deadlineSeconds
    · exact ⟨_, by simp [execCommand, h, ht]; rfl⟩
    · obtain ⟨t1, h1⟩ := hto ⟨(os.spawn argv w.st).2, w.trace ++ [Event.command argv]⟩
      exact ⟨[Event.command argv] ++ t1, by simp [execCommand, h, ht, h1]⟩
  | hangs =>
    obtain ⟨t1, h1⟩ := hto ⟨(os.spawn argv w.st).2, w.trace ++ [Event.command argv]⟩
    exact ⟨[Event.command argv] ++ t1, by simp [execCommand, h, h1]⟩

theorem World.Extends.refl (w : World σ) : w.Extends w := ⟨[], by simp⟩

theorem World.Extends.trans {w1 w2 w3 : World σ} (h12 : w1.Extends w2) (h23 : w2.Extends w3) :
    w1.Extends w3 := by
  obtain ⟨t, ht⟩ := h12
  obtain ⟨u, hu⟩ := h23
  exact ⟨t ++ u, by rw [hu, ht, List.append_assoc]⟩

theorem extends_logf (format : String) (args : List String) (w : World σ) :
    w.Extends (logf format args w) := ⟨_, rfl⟩

theorem extends_ChangeDirectory (os : OS σ) (path : String) (w : World σ) :
    w.Extends (ChangeDirectory os path w).2 := ⟨_, ChangeDirectory_trace os path w⟩

theorem extends_execCommand (os : OS σ) (argv : List String) (w : World σ) :
    w.Extends (execCommand os argv w).2 := execCommand_trace os argv w

theorem extends_removePreamble (os : OS σ) (path branchName : String) (w : World σ) :
    (ChangeDirectory os (Repeat "../" (CountSlash branchName + 1)) w).2.Extends
      (removePreamble os path branchName w) := by
  have hm : ∀ (o : Option String) (format : String) (w1 : World σ),
      w1.Extends (match o with
        | some e => logf format [e] w1
        | none => w1) := by
    intro o format w1
    cases o
    · exact World.Extends.refl w1
    · exact extends_logf _ _ _
  have hi : ∀ (c : Prop) [Decidable c] (format : String) (args : List String) (w1 : World σ),
      w1.Extends (if c then logf format args w1 else w1) := by
    intro c _ format args w1
    split
    · exact extends_logf _ _ _
    · exact World.Extends.refl w1
  unfold removePreamble
  simp only []
  refine World.Extends.trans ?_ (extends_logf _ _ _)
  refine World.Extends.trans ?_ (hm _ _ _)
  refine World.Extends.trans ?_ (extends_ChangeDirectory _ _ _)
  refine World.Extends.trans ?_ (hi _ _ _ _)
  exact hm _ _ _

theorem extends_RemoveWorktree (os : OS σ) (path branchName : String) (w : World σ) :
    (removePreamble os path branchName w).Extends (RemoveWorktree os path branchName w).2 := by
  unfold RemoveWorktree
  simp only []
  have h1 := extends_execCommand os ["git", "worktree", "remove", path]
    (removePreamble os path branchName w)
  split
  · exact h1
  · refine World.Extends.trans h1 ?_
    refine World.Extends.trans (extends_logf "Removing git branch %v" [branchName] _) ?_
    have h2 := extends_execCommand os ["git", "branch", "-D", branchName]
      (logf "Removing git branch %v" [branchName]
        (execCommand os ["git", "worktree", "remove", path]
          (removePreamble os path branchName w)).2)
    split <;> exact h2

/-- C10: the first call `RemoveWorktree` issues is a directory change to `../` repeated once
per `/`-separated segment of `branchName`; a name with `k - 1` slashes has `k` segments. -/
theorem RemoveWorktree_ascends_one_level_per_segment (os : OS σ) (path branchName : String)
    (w : World σ) :
    (∃ rest, (RemoveWorktree os path branchName w).2.trace
      = w.trace ++ Event.chdir (Repeat "../" (Segments branchName).length) :: rest) ∧
    (Segments branchName).length = CountSlash branchName + 1 := by
  refine ⟨?_, length_Segments branchName⟩
  obtain ⟨t, ht⟩ := World.Extends.trans (extends_removePreamble os path branchName w)
    (extends_RemoveWorktree os path branchName w)
  refine ⟨t, ?_⟩
  rw [ht, ChangeDirectory_trace, length_Segments, List.append_assoc]
  rfl

/-- One level for `feat`, two levels for `feature/x`. -/
theorem RemoveWorktree_ascent_examples :
    Repeat "../" (Segments "feat").length = "../" ∧
    Repeat "../" (Segments "feature/x").length = "../../" ∧
    chdirsOf (RemoveWorktree plainRepo.os "/repos/proj/feature/x" "feature/x" World.start).2.trace
      = ["../../", "main"] := by
  decide

/-! ### `filepath.Join` on the paths the program builds -/

theorem Join_examples :
    Join ["..", "feat"] = "../feat" ∧ Join [".", "main"] = "main" ∧ Join ["..", ""] = ".." ∧
    Join ["proj", "main"] = "proj/main" ∧
    Join ["..", "feature/x", "workspace.code-workspace"]
      = "../feature/x/workspace.code-workspace" ∧
    Clean "/../a//b/./c/.." = "/a/b" ∧ Clean "a/../.." = ".." ∧ Clean "" = "." ∧
    Clean "/" = "/" := by
  decide

end Worktree
